import Mathlib

/-!
Verification of the Balance-Triggered Role Reconciliation Engine
(discord-bot: `balance_monitor.py`, `database.py`, `anti_gaming_heuristics.py`).

Python floats are modelled as exact rationals (ℚ), timestamps as integers
(seconds since epoch), Mongo documents as Lean structures, and fallible
network / database effects as explicit input data (an inductive describing
the response, or an `Option` describing an interrupting exception).
-/

namespace CrowdpGate

/-! ## Role catalog data model (`roles` collection documents) -/

/-- A document of the `roles` collection: `discordRoleId`, `type`
(`"holder"` or `"amount"` in practice, but stored as a free-form string),
and the optional `amountThreshold` field. -/
structure Role where
  discordRoleId : String
  type : String
  amountThreshold : Option ℚ
deriving DecidableEq, Repr

/-- Python's `role.get('amountThreshold', 0)`: the threshold with default 0
for a missing field. -/
def thresholdOf (r : Role) : ℚ := r.amountThreshold.getD 0

/-- The descending-threshold order used by
`qualified_amount_roles.sort(key=..., reverse=True)`. -/
def thresholdGe (a b : Role) : Prop := thresholdOf b ≤ thresholdOf a

instance : DecidableRel thresholdGe := fun a b =>
  inferInstanceAs (Decidable (thresholdOf b ≤ thresholdOf a))

instance : IsTotal Role thresholdGe := ⟨fun a b => le_total (thresholdOf b) (thresholdOf a)⟩

instance : IsTrans Role thresholdGe := ⟨fun _ _ _ h1 h2 => le_trans h2 h1⟩

/-! ## Role Resolver, monitor variant
(`BalanceMonitor.get_roles_for_balance`, balance_monitor.py lines 179-214) -/

/-- Embeds `BalanceMonitor.get_roles_for_balance`: early-return `[]` on
`balance <= 0`; otherwise split the catalog into holder and amount roles,
keep the amount roles whose (defaulted) threshold is `<= balance`, sort them
by threshold descending, and return the holder roles (guarded once more by
`balance > 0`) followed by the head of the sorted qualifying amount roles. -/
def get_roles_for_balance (balance : ℚ) (all_roles : List Role) : List Role :=
  if balance ≤ 0 then []
  else
    let holder_roles := all_roles.filter (fun r => r.type == "holder")
    let amount_roles := all_roles.filter (fun r => r.type == "amount")
    let qualified_amount_roles :=
      amount_roles.filter (fun r => decide (thresholdOf r ≤ balance))
    let sorted_qualified := List.insertionSort thresholdGe qualified_amount_roles
    let result_roles := if 0 < balance then holder_roles else []
    match sorted_qualified with
    | [] => result_roles
    | top :: _ => result_roles ++ [top]

/-! ## Role Resolver, database variant
(`RoleDatabase.get_roles_for_balance`, database.py lines 101-127) -/

/-- Embeds `RoleDatabase.get_roles_for_balance`: `[]` on `balance <= 0`, otherwise
the Mongo query `{$or: [{type: 'holder'}, {type: 'amount', amountThreshold:
{$lte: balance}}]}` — a document with no `amountThreshold` field never
matches the `$lte` clause. -/
def db_get_roles_for_balance (balance : ℚ) (roles : List Role) : List Role :=
  if balance ≤ 0 then []
  else
    roles.filter (fun r =>
      r.type == "holder" ||
        (r.type == "amount" &&
          match r.amountThreshold with
          | some t => decide (t ≤ balance)
          | none => false))

/-! ## Volatility/Age Validator (`anti_gaming_heuristics.py`) -/

/-- A transaction as read from the chain gateway: only its (already parsed)
timestamp matters, `none` when the `timestamp` field is absent. -/
structure Tx where
  timestamp : Option Int
deriving DecidableEq, Repr

/-- Outcome of the first-transaction lookup inside `check_wallet_age`:
either the whole `try` body raised (network error, JSON or timestamp parse
failure, ...), or an HTTP response with a status and the `txs` list (a `200`
body with a missing `txs` key reads as the empty list). -/
inductive AgeLookup where
  | exn (msg : String)
  | resp (status : Nat) (txs : List Tx)
deriving DecidableEq, Repr

/-- Seconds in a day: `timedelta(days=d)` compared against an age measured
in seconds. -/
def secondsPerDay : Int := 86400

/-- Embeds `AntiGamingHeuristics.check_wallet_age` (lines 32-86): non-200 status
passes ("Age verification unavailable"), an empty transaction list fails
("No transaction history found"), a first transaction without timestamp
passes, otherwise the wallet age `now - first_tx_time` is compared with
`timedelta(days=min_wallet_age_days)`; any exception passes. Returns the
`(is_valid, reason)` pair. -/
def check_wallet_age (lookup : AgeLookup) (now : Int) (min_wallet_age_days : Int) :
    Bool × String :=
  match lookup with
  | .exn m => (true, "Age check failed - allowed due to error: " ++ m)
  | .resp status txs =>
    if status ≠ 200 then
      (true, "Age verification unavailable - allowed")
    else
      match txs with
      | [] => (false, "No transaction history found - wallet appears to be new or inactive")
      | first_tx :: _ =>
        match first_tx.timestamp with
        | none => (true, "Timestamp unavailable - allowed")
        | some t =>
          let wallet_age := now - t
          let min_age := min_wallet_age_days * secondsPerDay
          if wallet_age < min_age then
            (false, "Wallet too new: " ++ toString (wallet_age / secondsPerDay) ++
              " days old (minimum: " ++ toString min_wallet_age_days ++ " days)")
          else
            (true, "Wallet age verified: " ++ toString (wallet_age / secondsPerDay) ++
              " days old")

/-- The loop of `check_balance_volatility` lines 120-128: for each
consecutive pair of balance values, when the prior value is `> 0` record the
relative change `abs(curr - prev) / prev`, otherwise skip the pair. -/
def percentage_changes : List ℚ → List ℚ
  | [] => []
  | [_] => []
  | prev :: curr :: rest =>
    (if 0 < prev then [|curr - prev| / prev] else []) ++ percentage_changes (curr :: rest)

/-- Python's `max` over a list (the empty case is never reached by the
guarded caller). -/
def listMax : List ℚ → ℚ
  | [] => 0
  | h :: t => t.foldl max h

/-- Embeds `statistics.mean`. -/
def listMean (l : List ℚ) : ℚ := l.sum / (l.length : ℚ)

/-- Embeds `AntiGamingHeuristics.check_balance_volatility` (lines 88-149).
`recent_balances` is the chronologically ordered list of `currentBalance`
values of the wallet's balance-history records inside the trailing window;
`err = some m` means the `try` body raised (e.g. the history query failed),
which passes. Fewer than 2 history records pass; then the caller-supplied
current balance is appended, fewer than 3 values pass; the pairwise relative
changes are computed (skipping pairs with non-positive prior value); an
empty change list passes; a maximum change above `max_volatility_threshold`
fails; a mean change above `0.7` times the threshold fails; otherwise pass.
Returns the `(is_valid, reason)` pair. -/
def check_balance_volatility (err : Option String) (recent_balances : List ℚ)
    (current_balance : ℚ) (max_volatility_threshold : ℚ) : Bool × String :=
  match err with
  | some m => (true, "Volatility check failed - allowed due to error: " ++ m)
  | none =>
    if recent_balances.length < 2 then
      (true, "Insufficient balance history for volatility check")
    else
      let balance_values := recent_balances ++ [current_balance]
      if balance_values.length < 3 then
        (true, "Insufficient data points for volatility calculation")
      else
        let changes := percentage_changes balance_values
        if changes = [] then
          (true, "No valid balance changes to analyze")
        else
          let max_change := listMax changes
          if max_volatility_threshold < max_change then
            (false, "Extreme balance volatility detected")
          else
            let avg_change := listMean changes
            if max_volatility_threshold * (7 / 10) < avg_change then
              (false, "High average volatility")
            else
              (true, "Balance volatility acceptable")

/-- One entry of the `checks_performed` dict of a validation result:
the per-check `{valid, reason}` detail, or (for the `'error'` key written by
the top-level exception handler, which carries no `valid` flag) just the
message. -/
structure CheckEntry where
  name : String
  valid : Option Bool
  reason : String
deriving DecidableEq, Repr

/-- The dict returned by `validate_wallet_for_role_assignment`. -/
structure ValidationResult where
  is_valid : Bool
  blocked_reasons : List String
  warnings : List String
  checks_performed : List CheckEntry
deriving DecidableEq, Repr

/-- Lines 177-185: record the wallet-age check's outcome and, when it
failed, clear `is_valid` and append its blocked reason. -/
def applyAgeCheck (r : ValidationResult) (age : Bool × String) : ValidationResult :=
  let r := { r with checks_performed := r.checks_performed ++ [⟨"wallet_age", some age.1, age.2⟩] }
  if age.1 then r
  else { r with is_valid := false,
                blocked_reasons := r.blocked_reasons ++ ["Wallet Age: " ++ age.2] }

/-- Lines 187-196: record the balance-volatility check's outcome and, when
it failed, clear `is_valid` and append its blocked reason. -/
def applyVolatilityCheck (r : ValidationResult) (vol : Bool × String) : ValidationResult :=
  let r := { r with
    checks_performed := r.checks_performed ++ [⟨"balance_volatility", some vol.1, vol.2⟩] }
  if vol.1 then r
  else { r with is_valid := false,
                blocked_reasons := r.blocked_reasons ++ ["Balance Volatility: " ++ vol.2] }

/-- Where a top-level exception interrupts the `try` body of
`validate_wallet_for_role_assignment`: before the age check completes,
between the two checks, or after both checks (the trailing logging). -/
inductive ErrPoint where
  | beforeAge
  | beforeVolatility
  | afterChecks
deriving DecidableEq, Repr

/-- Embeds `AntiGamingHeuristics.validate_wallet_for_role_assignment`
(lines 151-210): start from `{is_valid: true, blocked_reasons: [],
warnings: [], checks_performed: {}}`, run the age check then the volatility
check, each recording its detail and appending a blocked reason on failure;
a top-level exception (`err = some (p, m)`) leaves the mutations made up to
point `p` in place, appends the `"Validation error: ..."` warning and the
`'error'` entry of `checks_performed`, and returns the result as it stands
(the handler does not reset `is_valid`). -/
def validate_wallet_for_role_assignment (ageLookup : AgeLookup) (now : Int)
    (min_wallet_age_days : Int) (volErr : Option String) (recent_balances : List ℚ)
    (current_balance : ℚ) (max_volatility_threshold : ℚ)
    (err : Option (ErrPoint × String)) : ValidationResult :=
  let result : ValidationResult := ⟨true, [], [], []⟩
  let age := check_wallet_age ageLookup now min_wallet_age_days
  let vol := check_balance_volatility volErr recent_balances current_balance
    max_volatility_threshold
  match err with
  | none => applyVolatilityCheck (applyAgeCheck result age) vol
  | some (p, m) =>
    let sofar :=
      match p with
      | .beforeAge => result
      | .beforeVolatility => applyAgeCheck result age
      | .afterChecks => applyVolatilityCheck (applyAgeCheck result age) vol
    { sofar with
      warnings := sofar.warnings ++ ["Validation error: " ++ m],
      checks_performed := sofar.checks_performed ++ [⟨"error", none, m⟩] }

/-! ## Balance Fetcher (`BalanceMonitor.get_wallet_balance`, lines 80-108) -/

/-- One entry of the `balances` array of the bank endpoint: the raw
`amount`, `none` when the field is absent (read with default 0). -/
structure Coin where
  amount : Option ℚ
deriving DecidableEq, Repr

/-- What the balance request produced: a response with status and parsed
`balances` array, a timeout, or any other exception. -/
inductive FetchResult where
  | resp (status : Nat) (balances : List Coin)
  | timeout
  | exn (msg : String)
deriving DecidableEq, Repr

/-- Embeds `BalanceMonitor.get_wallet_balance`: on HTTP 200 sum
`amount / 1_000_000` over all returned denominations; on any other status,
on timeout, or on any exception return `0.0`. -/
def get_wallet_balance (r : FetchResult) : ℚ :=
  match r with
  | .resp status balances =>
    if status = 200 then
      balances.foldl (fun total b => total + b.amount.getD 0 / 1000000) 0
    else 0
  | .timeout => 0
  | .exn _ => 0

/-! ## Balance Poller (`BalanceMonitor.batch_check_balances`, lines 110-151,
and `save_balance_history`, lines 153-177) -/

/-- A user document as read by `get_linked_wallets` (both `walletAddress`
and `discordId` populated), with the Mongo `_id` and the optional
`lastKnownBalance` (read with default `0.0`). -/
structure WalletLink where
  userId : String
  discordId : String
  walletAddress : String
  lastKnownBalance : Option ℚ
deriving DecidableEq, Repr

/-- The delta document appended to `balance_updates` (the `timestamp`
field is left out of the model). -/
structure BalanceDelta where
  userId : String
  discordId : String
  walletAddress : String
  previousBalance : ℚ
  currentBalance : ℚ
  balanceChange : ℚ
deriving DecidableEq, Repr

/-- The epsilon `0.000001` of the balance-change comparison. -/
def balanceEpsilon : ℚ := 1 / 1000000

/-- The delta document built at lines 133-141. -/
def mkDelta (w : WalletLink) (current_balance : ℚ) : BalanceDelta :=
  let previous_balance := w.lastKnownBalance.getD 0
  ⟨w.userId, w.discordId, w.walletAddress, previous_balance, current_balance,
    current_balance - previous_balance⟩

/-- Embeds `BalanceMonitor.batch_check_balances`: for each wallet (in order,
batching only groups the fetches), fetch the current balance, read the
previous balance with default `0.0`, and append a delta exactly when
`abs(current - previous) > 0.000001`. `fetch` gives each wallet's fetched
balance (`get_wallet_balance` never raises: it returns 0 on failure). -/
def batch_check_balances (wallets : List WalletLink) (fetch : WalletLink → ℚ) :
    List BalanceDelta :=
  wallets.foldl
    (fun balance_updates w =>
      if balanceEpsilon < |fetch w - w.lastKnownBalance.getD 0| then
        balance_updates ++ [mkDelta w (fetch w)]
      else balance_updates)
    []

/-- The persistence effects of `save_balance_history`: the history records
inserted by `insert_many`, and the `(userId, lastKnownBalance)` pairs set by
the per-update `update_one` calls. -/
structure SaveEffects where
  insertedRecords : List BalanceDelta
  lastKnownUpdates : List (String × ℚ)
deriving DecidableEq, Repr

/-- Embeds `BalanceMonitor.save_balance_history`: insert every delta into
`balance_history` and set each delta's user's `lastKnownBalance` to the
delta's `currentBalance`. -/
def save_balance_history (balance_updates : List BalanceDelta) : SaveEffects :=
  ⟨balance_updates, balance_updates.map (fun u => (u.userId, u.currentBalance))⟩

/-! ## Reconciliation Executor
(`BalanceMonitor.update_user_roles_direct`, lines 216-316) -/

/-- The role-id set of a list of catalog documents
(`{role['discordRoleId'] for role in roles}`). -/
def roleIds (roles : List Role) : Finset String :=
  (roles.map Role.discordRoleId).toFinset

/-- Embeds `qualified_role_ids` at line 283. -/
def qualified_role_ids (balance : ℚ) (catalog : List Role) : Finset String :=
  roleIds (get_roles_for_balance balance catalog)

/-- Embeds `roles_to_add` at line 293. -/
def roles_to_add (current_roles : Finset String) (balance : ℚ) (catalog : List Role) :
    Finset String :=
  qualified_role_ids balance catalog \ (current_roles ∩ roleIds catalog)

/-- Embeds `roles_to_remove` at line 294. -/
def roles_to_remove (current_roles : Finset String) (balance : ℚ) (catalog : List Role) :
    Finset String :=
  (current_roles ∩ roleIds catalog) \ qualified_role_ids balance catalog

/-- Embeds `new_roles` at line 298: the role set submitted in the PATCH payload. -/
def new_roles (current_roles : Finset String) (balance : ℚ) (catalog : List Role) :
    Finset String :=
  (current_roles \ roles_to_remove current_roles balance catalog) ∪
    roles_to_add current_roles balance catalog

/-- The role set a member holds after one pass of the executor's diff:
unchanged when both diff sets are empty (no PATCH is issued), otherwise the
submitted `new_roles` set. -/
def reconciled_roles (current_roles : Finset String) (balance : ℚ) (catalog : List Role) :
    Finset String :=
  if roles_to_add current_roles balance catalog ≠ ∅ ∨
      roles_to_remove current_roles balance catalog ≠ ∅ then
    new_roles current_roles balance catalog
  else current_roles

/-- The audit document inserted into `blocked_role_assignments`
(lines 249-256; the `timestamp` field is left out of the model). -/
structure AuditRecord where
  discordId : String
  walletAddress : String
  currentBalance : ℚ
  blocked_reasons : List String
  checks_performed : List CheckEntry
deriving DecidableEq, Repr

/-- How one delta's iteration of `update_user_roles_direct` ended. -/
inductive DeltaOutcome where
  | blocked
  | memberNotFound
  | applied
  | skipped
deriving DecidableEq, Repr

/-- The observable effects of one delta's iteration of
`update_user_roles_direct`: whether the anti-gaming validator was invoked,
the audit inserts issued, the role set submitted by a PATCH (`none` when no
PATCH was issued), and the outcome. -/
structure DeltaEffects where
  validatorInvoked : Bool
  audits : List AuditRecord
  rolePatch : Option (Finset String)
  outcome : DeltaOutcome
deriving DecidableEq

/-- Python truthiness of `update.get('walletAddress')`: a wallet address is
usable when the field is present and not the empty string. -/
def walletTruthy : Option String → Bool
  | none => false
  | some w => w ≠ ""

/-- The role-diffing tail of one delta's iteration (lines 271-313): fetch
the member (`memberRoles = none` models a non-200 member lookup, which skips
the wallet), diff the qualified role ids against the member's managed roles,
and PATCH the new role set only when the diff is non-empty. -/
def applyRoleDiff (invoked : Bool) (memberRoles : Option (Finset String))
    (current_balance : ℚ) (catalog : List Role) : DeltaEffects :=
  match memberRoles with
  | none => ⟨invoked, [], none, .memberNotFound⟩
  | some current_roles =>
    if roles_to_add current_roles current_balance catalog ≠ ∅ ∨
        roles_to_remove current_roles current_balance catalog ≠ ∅ then
      ⟨invoked, [], some (new_roles current_roles current_balance catalog), .applied⟩
    else
      ⟨invoked, [], none, .skipped⟩

/-- One delta's iteration of `update_user_roles_direct` (lines 232-313):
when the wallet address is truthy and `currentBalance > 0`, invoke the
validator (`valRes` is the `ValidationResult` it returns); if invalid,
insert one audit record built from the delta and the validation result and
skip the wallet (no role mutation); otherwise proceed to the role diff. -/
def process_delta (discordId : String) (walletAddress : Option String)
    (current_balance : ℚ) (valRes : ValidationResult)
    (memberRoles : Option (Finset String)) (catalog : List Role) : DeltaEffects :=
  if walletTruthy walletAddress && decide (0 < current_balance) then
    if !valRes.is_valid then
      ⟨true,
        [⟨discordId, walletAddress.getD "", current_balance,
          valRes.blocked_reasons, valRes.checks_performed⟩],
        none, .blocked⟩
    else applyRoleDiff true memberRoles current_balance catalog
  else applyRoleDiff false memberRoles current_balance catalog

/-- A small concrete catalog: one holder role and two amount roles with
thresholds 50 and 100. -/
def sampleCatalog : List Role :=
  [⟨"H", "holder", none⟩, ⟨"A1", "amount", some 50⟩, ⟨"A2", "amount", some 100⟩]

/-- Two sample wallet links and a fetch assigning the first no change and
the second a change of 10. -/
def sampleWallet1 : WalletLink := ⟨"u1", "d1", "osmo1", some 5⟩

def sampleWallet2 : WalletLink := ⟨"u2", "d2", "osmo2", none⟩

def sampleFetch (w : WalletLink) : ℚ := if w.userId = "u2" then 10 else 5

/-! ## Theorems -/

/-- The `qualified_amount_roles` list of
`BalanceMonitor.get_roles_for_balance`. -/
def qualifiedAmount (b : ℚ) (catalog : List Role) : List Role :=
  (catalog.filter (fun r => r.type == "amount")).filter
    (fun r => decide (thresholdOf r ≤ b))

/-- The at-most-one amount role that
`BalanceMonitor.get_roles_for_balance` appends: the head of the qualifying
amount roles sorted by threshold descending, when there is one. -/
def amountPick (b : ℚ) (catalog : List Role) : List Role :=
  match List.insertionSort thresholdGe (qualifiedAmount b catalog) with
  | [] => []
  | top :: _ => [top]

theorem get_roles_for_balance_pos (b : ℚ) (catalog : List Role) (hb : 0 < b) :
    get_roles_for_balance b catalog =
      catalog.filter (fun r => r.type == "holder") ++ amountPick b catalog := by
  unfold get_roles_for_balance amountPick qualifiedAmount
  rw [if_neg (not_le.mpr hb)]
  simp only [if_pos hb]
  cases List.insertionSort thresholdGe
      ((catalog.filter (fun r => r.type == "amount")).filter
        (fun r => decide (thresholdOf r ≤ b))) with
  | nil => simp
  | cons top rest => rfl

theorem mem_qualifiedAmount {b : ℚ} {catalog : List Role} {r : Role} :
    r ∈ qualifiedAmount b catalog ↔ r ∈ catalog ∧ r.type = "amount" ∧ thresholdOf r ≤ b := by
  simp only [qualifiedAmount, List.mem_filter, decide_eq_true_eq, beq_iff_eq, and_assoc]

/-- C1: the monitor's role resolver returns `[]` on balance `≤ 0`, and on
balance `> 0` returns exactly the catalog's holder roles plus at most one
amount role, namely one with the highest (defaulted) threshold `≤ b`, and
none exactly when no amount role's threshold is `≤ b`. -/
theorem C1_role_resolver_correct (b : ℚ) (catalog : List Role) :
    (b ≤ 0 → get_roles_for_balance b catalog = []) ∧
    (0 < b →
      get_roles_for_balance b catalog =
        catalog.filter (fun r => r.type == "holder") ++ amountPick b catalog ∧
      (amountPick b catalog).length ≤ 1 ∧
      (amountPick b catalog = [] ↔
        ∀ r ∈ catalog, r.type = "amount" → b < thresholdOf r) ∧
      (∀ r ∈ amountPick b catalog,
        r ∈ catalog ∧ r.type = "amount" ∧ thresholdOf r ≤ b ∧
          ∀ r' ∈ catalog, r'.type = "amount" → thresholdOf r' ≤ b →
            thresholdOf r' ≤ thresholdOf r)) := by
  constructor
  · intro hb
    simp [get_roles_for_balance, if_pos hb]
  · intro hb
    refine ⟨get_roles_for_balance_pos b catalog hb, ?_, ?_, ?_⟩
    · unfold amountPick
      cases List.insertionSort thresholdGe (qualifiedAmount b catalog) <;> simp
    · unfold amountPick
      cases h : List.insertionSort thresholdGe (qualifiedAmount b catalog) with
      | nil =>
        have hq : qualifiedAmount b catalog = [] :=
          ((h ▸ List.perm_insertionSort thresholdGe (qualifiedAmount b catalog)).symm).eq_nil
        simp only [List.filter_eq_nil_iff, qualifiedAmount] at hq
        simp only [true_iff]
        intro r hr hamt
        by_contra hlt
        exact hq r (List.mem_filter.mpr ⟨hr, by simp [hamt]⟩)
          (by simpa using not_lt.mp hlt)
      | cons top rest =>
        have htop : top ∈ qualifiedAmount b catalog :=
          (List.mem_insertionSort thresholdGe).mp (h ▸ List.mem_cons_self top rest)
        obtain ⟨hmem, hamt, hle⟩ := mem_qualifiedAmount.mp htop
        simp only [List.cons_ne_self, false_iff] at *
        intro hall
        exact absurd hle (not_le.mpr (hall top hmem hamt))
    · unfold amountPick
      cases h : List.insertionSort thresholdGe (qualifiedAmount b catalog) with
      | nil => simp
      | cons top rest =>
        intro r hr
        simp only [List.mem_singleton] at hr
        subst hr
        have htop : r ∈ qualifiedAmount b catalog :=
          (List.mem_insertionSort thresholdGe).mp (h ▸ List.mem_cons_self r rest)
        obtain ⟨hmem, hamt, hle⟩ := mem_qualifiedAmount.mp htop
        refine ⟨hmem, hamt, hle, ?_⟩
        intro r' hr' hamt' hle'
        have hq' : r' ∈ qualifiedAmount b catalog :=
          mem_qualifiedAmount.mpr ⟨hr', hamt', hle'⟩
        have hsorted : List.Sorted thresholdGe (r :: rest) :=
          h ▸ List.sorted_insertionSort thresholdGe (qualifiedAmount b catalog)
        have : r' ∈ r :: rest :=
          h ▸ (List.mem_insertionSort thresholdGe).mpr hq'
        rcases List.mem_cons.mp this with heq | hmem'
        · exact heq ▸ le_refl _
        · exact List.rel_of_sorted_cons hsorted r' hmem'

/-- Witness for C1 at balance `-5` (empty) and balance `100` (holder role
plus the 100-threshold amount role). -/
theorem C1_role_resolver_correct_witness :
    get_roles_for_balance (-5) sampleCatalog = [] ∧
    (get_roles_for_balance 100 sampleCatalog =
        sampleCatalog.filter (fun r => r.type == "holder") ++ amountPick 100 sampleCatalog ∧
      (amountPick 100 sampleCatalog).length ≤ 1 ∧
      (amountPick 100 sampleCatalog = [] ↔
        ∀ r ∈ sampleCatalog, r.type = "amount" → 100 < thresholdOf r) ∧
      (∀ r ∈ amountPick 100 sampleCatalog,
        r ∈ sampleCatalog ∧ r.type = "amount" ∧ thresholdOf r ≤ 100 ∧
          ∀ r' ∈ sampleCatalog, r'.type = "amount" → thresholdOf r' ≤ 100 →
            thresholdOf r' ≤ thresholdOf r)) :=
  ⟨(C1_role_resolver_correct (-5) sampleCatalog).1 (by norm_num),
   (C1_role_resolver_correct 100 sampleCatalog).2 (by norm_num)⟩

theorem mem_amountPick {b : ℚ} {catalog : List Role} {r : Role}
    (h : r ∈ amountPick b catalog) : r ∈ qualifiedAmount b catalog := by
  unfold amountPick at h
  cases hs : List.insertionSort thresholdGe (qualifiedAmount b catalog) with
  | nil => rw [hs] at h; exact absurd h (List.not_mem_nil r)
  | cons top rest =>
    rw [hs] at h
    rw [List.mem_singleton] at h
    exact (List.mem_insertionSort thresholdGe).mp (hs ▸ (h ▸ List.mem_cons_self top rest))

theorem mem_get_roles_for_balance_pos {b : ℚ} {catalog : List Role} {r : Role}
    (hb : 0 < b) :
    r ∈ get_roles_for_balance b catalog ↔
      (r ∈ catalog ∧ r.type = "holder") ∨ r ∈ amountPick b catalog := by
  rw [get_roles_for_balance_pos b catalog hb]
  simp [List.mem_append, List.mem_filter]

theorem mem_db_get_roles_for_balance {b : ℚ} {catalog : List Role} {r : Role} :
    r ∈ db_get_roles_for_balance b catalog ↔
      ¬b ≤ 0 ∧ r ∈ catalog ∧
        (r.type = "holder" ∨
          (r.type = "amount" ∧ ∃ t, r.amountThreshold = some t ∧ t ≤ b)) := by
  unfold db_get_roles_for_balance
  by_cases hb : b ≤ 0
  · simp [hb]
  · rw [if_neg hb, List.mem_filter]
    simp only [hb, not_false_iff, true_and, Bool.or_eq_true, Bool.and_eq_true, beq_iff_eq]
    constructor
    · rintro ⟨hmem, hp⟩
      refine ⟨hmem, ?_⟩
      rcases hp with hh | ⟨ha, hthr⟩
      · exact Or.inl hh
      · refine Or.inr ⟨ha, ?_⟩
        cases ht : r.amountThreshold with
        | none => rw [ht] at hthr; exact absurd hthr (by simp)
        | some t =>
          rw [ht] at hthr
          exact ⟨t, rfl, by simpa using hthr⟩
    · rintro ⟨hmem, hp⟩
      refine ⟨hmem, ?_⟩
      rcases hp with hh | ⟨ha, t, ht, hle⟩
      · exact Or.inl hh
      · exact Or.inr ⟨ha, by rw [ht]; simpa using hle⟩

theorem amountPick_eq_of_mem {b : ℚ} {catalog : List Role} {r1 r2 : Role}
    (h1 : r1 ∈ amountPick b catalog) (h2 : r2 ∈ amountPick b catalog) : r1 = r2 := by
  unfold amountPick at h1 h2
  cases hs : List.insertionSort thresholdGe (qualifiedAmount b catalog) with
  | nil =>
    rw [hs] at h1
    exact absurd h1 (List.not_mem_nil r1)
  | cons top rest =>
    rw [hs, List.mem_singleton] at h1 h2
    rw [h1, h2]

theorem amountPick_singleton {b : ℚ} {catalog : List Role} {r : Role}
    (h : r ∈ qualifiedAmount b catalog) :
    ∃ top, amountPick b catalog = [top] ∧ top ∈ qualifiedAmount b catalog := by
  cases hs : List.insertionSort thresholdGe (qualifiedAmount b catalog) with
  | nil =>
    have hq : qualifiedAmount b catalog = [] :=
      ((hs ▸ List.perm_insertionSort thresholdGe (qualifiedAmount b catalog)).symm).eq_nil
    rw [hq] at h
    exact absurd h (List.not_mem_nil r)
  | cons top rest =>
    refine ⟨top, ?_, (List.mem_insertionSort thresholdGe).mp (hs ▸ List.mem_cons_self top rest)⟩
    unfold amountPick
    rw [hs]

/-- C2 counterexample: at balance 100, the database resolver returns the
50-threshold amount role but the monitor resolver does not, so the two
implementations do not return the same set. -/
theorem C2_resolvers_counterexample :
    (⟨"A1", "amount", some 50⟩ : Role) ∈ db_get_roles_for_balance 100 sampleCatalog ∧
    (⟨"A1", "amount", some 50⟩ : Role) ∉ get_roles_for_balance 100 sampleCatalog := by
  decide

/-- C2 amended: the two resolvers do not return the same set in general;
when every amount role carries an explicit threshold, the monitor
resolver's result is contained in the database resolver's result, and for
balance > 0 the two coincide (as sets) exactly when all qualifying amount
roles are equal, i.e. at most one distinct amount role qualifies — with
two distinct qualifying amount roles the database resolver returns all of
them while the monitor returns only one. -/
theorem C2_resolvers_refinement (b : ℚ) (catalog : List Role)
    (hthr : ∀ r ∈ catalog, r.type = "amount" → r.amountThreshold.isSome) :
    (∀ r ∈ get_roles_for_balance b catalog, r ∈ db_get_roles_for_balance b catalog) ∧
    (0 < b →
      ((∀ r, r ∈ get_roles_for_balance b catalog ↔ r ∈ db_get_roles_for_balance b catalog) ↔
        ∀ r1 ∈ qualifiedAmount b catalog, ∀ r2 ∈ qualifiedAmount b catalog, r1 = r2)) := by
  have hamtiff : ∀ r ∈ catalog, r.type = "amount" →
      ((∃ t, r.amountThreshold = some t ∧ t ≤ b) ↔ thresholdOf r ≤ b) := by
    intro r hr ha
    have := hthr r hr ha
    cases ht : r.amountThreshold with
    | none => rw [ht] at this; simp at this
    | some t => simp [thresholdOf, ht]
  have hsub : ∀ r ∈ get_roles_for_balance b catalog, r ∈ db_get_roles_for_balance b catalog := by
    intro r hr
    by_cases hb : b ≤ 0
    · rw [get_roles_for_balance, if_pos hb] at hr
      exact absurd hr (List.not_mem_nil r)
    · rcases (mem_get_roles_for_balance_pos (not_le.mp hb)).mp hr with ⟨hmem, hh⟩ | hpick
      · exact mem_db_get_roles_for_balance.mpr ⟨hb, hmem, Or.inl hh⟩
      · obtain ⟨hmem, ha, hle⟩ := mem_qualifiedAmount.mp (mem_amountPick hpick)
        exact mem_db_get_roles_for_balance.mpr
          ⟨hb, hmem, Or.inr ⟨ha, (hamtiff r hmem ha).mpr hle⟩⟩
  refine ⟨hsub, ?_⟩
  intro hb
  constructor
  · intro hiff r1 h1 r2 h2
    have hpick : ∀ r ∈ qualifiedAmount b catalog, r ∈ amountPick b catalog := by
      intro r hq
      obtain ⟨hmem, ha, hle⟩ := mem_qualifiedAmount.mp hq
      have hdb : r ∈ db_get_roles_for_balance b catalog :=
        mem_db_get_roles_for_balance.mpr
          ⟨not_le.mpr hb, hmem, Or.inr ⟨ha, (hamtiff r hmem ha).mpr hle⟩⟩
      rcases (mem_get_roles_for_balance_pos hb).mp ((hiff r).mpr hdb) with ⟨-, hh⟩ | hp
      · exact absurd (ha.symm.trans hh) (by decide)
      · exact hp
    exact amountPick_eq_of_mem (hpick r1 h1) (hpick r2 h2)
  · intro huniq r
    refine ⟨fun hr => hsub r hr, fun hr => ?_⟩
    obtain ⟨-, hmem, hcase⟩ := mem_db_get_roles_for_balance.mp hr
    rcases hcase with hh | ⟨ha, hex⟩
    · exact (mem_get_roles_for_balance_pos hb).mpr (Or.inl ⟨hmem, hh⟩)
    · have hq : r ∈ qualifiedAmount b catalog :=
        mem_qualifiedAmount.mpr ⟨hmem, ha, (hamtiff r hmem ha).mp hex⟩
      obtain ⟨top, hpick, htopq⟩ := amountPick_singleton hq
      have htr : top = r := huniq top htopq r hq
      refine (mem_get_roles_for_balance_pos hb).mpr (Or.inr ?_)
      rw [hpick, htr]
      exact List.mem_singleton_self r

/-- Witness for C2's amended theorem: the sample catalog's amount roles all
have explicit thresholds, and at balance 60 the containment holds and the
coincide-iff-unique-qualifier equivalence is instantiated. -/
theorem C2_resolvers_refinement_witness :
    (∀ r ∈ get_roles_for_balance 60 sampleCatalog,
      r ∈ db_get_roles_for_balance 60 sampleCatalog) ∧
    ((∀ r, r ∈ get_roles_for_balance 60 sampleCatalog ↔
        r ∈ db_get_roles_for_balance 60 sampleCatalog) ↔
      ∀ r1 ∈ qualifiedAmount 60 sampleCatalog, ∀ r2 ∈ qualifiedAmount 60 sampleCatalog,
        r1 = r2) :=
  ⟨(C2_resolvers_refinement 60 sampleCatalog (by decide)).1,
   (C2_resolvers_refinement 60 sampleCatalog (by decide)).2 (by norm_num)⟩

theorem percentage_changes_eq_spec (values : List ℚ) (h : ∀ x ∈ values, 0 ≤ x) :
    percentage_changes values =
      ((values.zip values.tail).filter (fun p => decide (p.1 ≠ 0))).map
        (fun p => |p.2 - p.1| / p.1) := by
  induction values with
  | nil => rfl
  | cons a t ih =>
    cases t with
    | nil => rfl
    | cons b u =>
      have ha : 0 ≤ a := h a (List.mem_cons_self a _)
      have ht : ∀ x ∈ b :: u, 0 ≤ x := fun x hx => h x (List.mem_cons_of_mem a hx)
      have ihr := ih ht
      rw [List.tail_cons] at ihr
      simp only [percentage_changes]
      rw [List.tail_cons, List.zip_cons_cons, List.filter_cons]
      by_cases h0 : a = 0
      · subst h0
        rw [if_neg (lt_irrefl 0), if_neg (by simp), List.nil_append, ihr]
      · have hpos : 0 < a := lt_of_le_of_ne ha (Ne.symm h0)
        rw [if_pos hpos, if_pos (by simp [h0]), List.map_cons, ihr, List.singleton_append]

/-- C3: with fewer than 3 total data points (history plus appended current
balance) the volatility check passes; with at least 3 it fails exactly when
the pairwise relative changes over consecutive samples — skipping pairs
whose prior sample is 0 — have a maximum above the threshold or a mean
above 0.7 times the threshold. Balances are non-negative (as produced by
the fetcher). -/
theorem C3_volatility_check (recent : List ℚ) (current : ℚ) (thr : ℚ)
    (hrec : ∀ x ∈ recent, 0 ≤ x) (hcur : 0 ≤ current) :
    (recent.length + 1 < 3 → (check_balance_volatility none recent current thr).1 = true) ∧
    (3 ≤ recent.length + 1 →
      ((check_balance_volatility none recent current thr).1 = false ↔
        (let values := recent ++ [current]
         let changes := ((values.zip values.tail).filter (fun p => decide (p.1 ≠ 0))).map
           (fun p => |p.2 - p.1| / p.1)
         changes ≠ [] ∧ (thr < listMax changes ∨ thr * (7 / 10) < listMean changes)))) := by
  have hall : ∀ x ∈ recent ++ [current], 0 ≤ x := by
    intro x hx
    rcases List.mem_append.mp hx with h | h
    · exact hrec x h
    · rw [List.mem_singleton] at h; exact h ▸ hcur
  have hspec := percentage_changes_eq_spec (recent ++ [current]) hall
  constructor
  · intro hlen
    have h2 : recent.length < 2 := by omega
    simp [check_balance_volatility, if_pos h2]
  · intro hlen
    have h2 : ¬recent.length < 2 := by omega
    have h3 : ¬(recent ++ [current]).length < 3 := by
      rw [List.length_append]; simp; omega
    simp only [check_balance_volatility]
    rw [if_neg h2, if_neg h3, ← hspec]
    by_cases hnil : percentage_changes (recent ++ [current]) = []
    · simp [hnil]
    · rw [if_neg hnil]
      split_ifs with hmax hmean
      · simp [hnil, hmax]
      · simp [hnil, hmax, hmean]
      · simp [hnil, hmax, hmean]

/-- Witness for C3 at the spec's example: history 100, 100 with current
balance 160 gives a maximum pairwise change of 60% and fails at the default
threshold 1/2. -/
theorem C3_volatility_check_witness :
    (([100, 100] : List ℚ).length + 1 < 3 →
      (check_balance_volatility none [100, 100] 160 (1 / 2)).1 = true) ∧
    (3 ≤ ([100, 100] : List ℚ).length + 1 →
      ((check_balance_volatility none [100, 100] 160 (1 / 2)).1 = false ↔
        (let values := ([100, 100] : List ℚ) ++ [160]
         let changes := ((values.zip values.tail).filter (fun p => decide (p.1 ≠ 0))).map
           (fun p => |p.2 - p.1| / p.1)
         changes ≠ [] ∧
           ((1 / 2 : ℚ) < listMax changes ∨ (1 / 2 : ℚ) * (7 / 10) < listMean changes)))) :=
  C3_volatility_check [100, 100] 160 (1 / 2) (by norm_num) (by norm_num)

/-- C4: the age check blocks exactly when the lookup returns HTTP 200 with
an empty transaction list, or returns HTTP 200 whose first transaction has a
timestamp with `now - timestamp` below the configured minimum age; non-200
responses, missing timestamps and exceptions all pass (fail-open). -/
theorem C4_age_check (lookup : AgeLookup) (now min_days : Int) :
    (check_wallet_age lookup now min_days).1 = false ↔
      lookup = .resp 200 [] ∨
        ∃ first_tx rest t, lookup = .resp 200 (first_tx :: rest) ∧
          first_tx.timestamp = some t ∧ now - t < min_days * secondsPerDay := by
  cases lookup with
  | exn m => simp [check_wallet_age]
  | resp status txs =>
    by_cases hs : status = 200
    · subst hs
      cases txs with
      | nil => simp [check_wallet_age]
      | cons first_tx rest =>
        cases htx : first_tx.timestamp with
        | none =>
          simp only [check_wallet_age, ne_eq, not_true_eq_false, if_false, htx,
            AgeLookup.resp.injEq, List.cons_ne_nil, and_false, false_or, true_and]
          constructor
          · intro h; exact absurd h (by simp)
          · rintro ⟨f, r, t, hlist, hts, -⟩
            obtain ⟨hf, -⟩ := List.cons.injEq .. ▸ hlist
            rw [← hf] at hts
            rw [htx] at hts
            exact absurd hts (by simp)
        | some t =>
          simp only [check_wallet_age, ne_eq, not_true_eq_false, if_false, htx]
          by_cases hage : now - t < min_days * secondsPerDay
          · simp only [if_pos hage]
            constructor
            · intro _
              exact Or.inr ⟨first_tx, rest, t, rfl, htx, hage⟩
            · intro _; trivial
          · simp only [if_neg hage]
            constructor
            · intro h; exact absurd h (by simp)
            · rintro (h | ⟨f, r, t', hlist, hts, hlt⟩)
              · exact absurd h (by simp)
              · have hf : f = first_tx ∧ r = rest := by
                  have := (AgeLookup.resp.injEq ..).mp hlist
                  exact ⟨(List.cons.injEq ..).mp this.2 |>.1.symm,
                    (List.cons.injEq ..).mp this.2 |>.2.symm⟩
                rw [hf.1, htx] at hts
                rw [Option.some.injEq] at hts
                rw [← hts] at hlt
                exact absurd hlt hage
    · simp only [check_wallet_age, ne_eq, if_pos hs]
      constructor
      · intro h; exact absurd h (by simp)
      · rintro (h | ⟨f, r, t, hlist, -, -⟩)
        · exact absurd ((AgeLookup.resp.injEq ..).mp h).1 hs
        · exact absurd ((AgeLookup.resp.injEq ..).mp hlist).1 hs

theorem applyAgeCheck_init (age : Bool × String) :
    applyAgeCheck ⟨true, [], [], []⟩ age =
      ⟨age.1, (if age.1 = true then [] else ["Wallet Age: " ++ age.2]), [],
       [⟨"wallet_age", some age.1, age.2⟩]⟩ := by
  cases hA : age.1 <;> simp [applyAgeCheck, hA]

theorem applyChecks_init (age vol : Bool × String) :
    applyVolatilityCheck (applyAgeCheck ⟨true, [], [], []⟩ age) vol =
      ⟨age.1 && vol.1,
       (if age.1 = true then [] else ["Wallet Age: " ++ age.2]) ++
         (if vol.1 = true then [] else ["Balance Volatility: " ++ vol.2]),
       [],
       [⟨"wallet_age", some age.1, age.2⟩, ⟨"balance_volatility", some vol.1, vol.2⟩]⟩ := by
  rw [applyAgeCheck_init]
  cases hA : age.1 <;> cases hV : vol.1 <;> simp [applyVolatilityCheck, hA, hV]

/-- C5 counterexample: with a wallet whose age check fails (HTTP 200, no
transactions) and a top-level exception hitting the logging after both
checks, the validator returns `is_valid = false` with a warning appended —
not `is_valid = true` as the claim states for top-level errors. -/
theorem C5_validator_counterexample :
    (validate_wallet_for_role_assignment (.resp 200 []) 0 7 none [] 1 (1 / 2)
        (some (.afterChecks, "boom"))).is_valid = false ∧
      (validate_wallet_for_role_assignment (.resp 200 []) 0 7 none [] 1 (1 / 2)
          (some (.afterChecks, "boom"))).warnings = ["Validation error: boom"] := by
  decide

/-- C5 amended: with no top-level error the validator runs both checks
(each recorded, neither preventing the other), returns `is_valid` equal to
their conjunction and one blocked reason per failing check with the age
reason first; on a top-level unexpected error it appends a warning and
returns the result accumulated so far, whose `is_valid` is `true` only when
no check completed and failed before the error. -/
theorem C5_validator_aggregate (ageLookup : AgeLookup) (now min_days : Int)
    (volErr : Option String) (recent : List ℚ) (current thr : ℚ) :
    (validate_wallet_for_role_assignment ageLookup now min_days volErr recent current thr
        none =
      ⟨(check_wallet_age ageLookup now min_days).1 &&
          (check_balance_volatility volErr recent current thr).1,
       (if (check_wallet_age ageLookup now min_days).1 = true then []
        else ["Wallet Age: " ++ (check_wallet_age ageLookup now min_days).2]) ++
         (if (check_balance_volatility volErr recent current thr).1 = true then []
          else ["Balance Volatility: " ++
            (check_balance_volatility volErr recent current thr).2]),
       [],
       [⟨"wallet_age", some (check_wallet_age ageLookup now min_days).1,
          (check_wallet_age ageLookup now min_days).2⟩,
        ⟨"balance_volatility", some (check_balance_volatility volErr recent current thr).1,
          (check_balance_volatility volErr recent current thr).2⟩]⟩) ∧
    (∀ (p : ErrPoint) (m : String),
      (validate_wallet_for_role_assignment ageLookup now min_days volErr recent current thr
          (some (p, m))).warnings = ["Validation error: " ++ m] ∧
      (validate_wallet_for_role_assignment ageLookup now min_days volErr recent current thr
          (some (p, m))).is_valid =
        (match p with
         | .beforeAge => true
         | .beforeVolatility => (check_wallet_age ageLookup now min_days).1
         | .afterChecks => (check_wallet_age ageLookup now min_days).1 &&
             (check_balance_volatility volErr recent current thr).1)) := by
  constructor
  · simpa [validate_wallet_for_role_assignment] using
      applyChecks_init (check_wallet_age ageLookup now min_days)
        (check_balance_volatility volErr recent current thr)
  · intro p m
    cases p with
    | beforeAge => simp [validate_wallet_for_role_assignment]
    | beforeVolatility =>
      simp [validate_wallet_for_role_assignment, applyAgeCheck_init]
    | afterChecks =>
      simp [validate_wallet_for_role_assignment, applyChecks_init]

theorem foldl_add_div_eq_sum (f : Coin → ℚ) (l : List Coin) (init : ℚ) :
    l.foldl (fun total b => total + f b) init = init + (l.map f).sum := by
  induction l generalizing init with
  | nil => simp
  | cons a t ih => simp [ih, add_assoc]

/-- C6: the balance fetcher returns the sum of `amount / 1_000_000` over
all returned denominations on an HTTP 200 response, returns exactly 0 on
any non-200 status, timeout or exception, and is therefore non-negative
whenever the raw amounts are. -/
theorem C6_fetcher_zero_on_failure (r : FetchResult) :
    (∀ balances, r = .resp 200 balances →
      get_wallet_balance r = (balances.map (fun b => b.amount.getD 0 / 1000000)).sum) ∧
    (∀ status balances, r = .resp status balances → status ≠ 200 →
      get_wallet_balance r = 0) ∧
    (r = .timeout → get_wallet_balance r = 0) ∧
    (∀ m, r = .exn m → get_wallet_balance r = 0) ∧
    ((∀ status balances, r = .resp status balances → ∀ b ∈ balances, 0 ≤ b.amount.getD 0) →
      0 ≤ get_wallet_balance r) := by
  refine ⟨?_, ?_, ?_, ?_, ?_⟩
  · rintro balances rfl
    show (if (200 : Nat) = 200 then
        balances.foldl (fun total b => total + b.amount.getD 0 / 1000000) 0 else 0) = _
    rw [if_pos rfl, foldl_add_div_eq_sum, zero_add]
  · rintro status balances rfl hs
    simp [get_wallet_balance, hs]
  · rintro rfl; rfl
  · rintro m rfl; rfl
  · intro hnn
    cases r with
    | timeout => exact le_refl 0
    | exn m => exact le_refl 0
    | resp status balances =>
      by_cases hs : status = 200
      · subst hs
        show 0 ≤ (if (200 : Nat) = 200 then
            balances.foldl (fun total b => total + b.amount.getD 0 / 1000000) 0 else 0)
        rw [if_pos rfl, foldl_add_div_eq_sum, zero_add]
        apply List.sum_nonneg
        intro x hx
        obtain ⟨b, hb, hbx⟩ := List.mem_map.mp hx
        rw [← hbx]
        exact div_nonneg (hnn 200 balances rfl b hb) (by norm_num)
      · simp [get_wallet_balance, hs]

/-- Witness for C6: a 200 response with amounts 5,000,000 and a missing
amount field sums to 5; a timeout returns 0; the sum is non-negative. -/
theorem C6_fetcher_zero_on_failure_witness :
    get_wallet_balance (.resp 200 [⟨some 5000000⟩, ⟨none⟩]) =
      (([⟨some 5000000⟩, ⟨none⟩] : List Coin).map
        (fun b => b.amount.getD 0 / 1000000)).sum ∧
    get_wallet_balance .timeout = 0 ∧
    0 ≤ get_wallet_balance (.resp 200 [⟨some 5000000⟩, ⟨none⟩]) :=
  ⟨(C6_fetcher_zero_on_failure (.resp 200 [⟨some 5000000⟩, ⟨none⟩])).1 _ rfl,
   (C6_fetcher_zero_on_failure .timeout).2.2.1 rfl,
   (C6_fetcher_zero_on_failure (.resp 200 [⟨some 5000000⟩, ⟨none⟩])).2.2.2.2
     (by rintro status balances h b hb
         cases h
         fin_cases hb <;> simp)⟩

theorem get_roles_mem_catalog {b : ℚ} {catalog : List Role} {r : Role}
    (h : r ∈ get_roles_for_balance b catalog) : r ∈ catalog := by
  by_cases hb : b ≤ 0
  · rw [get_roles_for_balance, if_pos hb] at h
    exact absurd h (List.not_mem_nil r)
  · rcases (mem_get_roles_for_balance_pos (not_le.mp hb)).mp h with ⟨hm, -⟩ | hp
    · exact hm
    · exact (mem_qualifiedAmount.mp (mem_amountPick hp)).1

theorem qualified_subset_managed (b : ℚ) (catalog : List Role) :
    qualified_role_ids b catalog ⊆ roleIds catalog := by
  intro x hx
  simp only [qualified_role_ids, roleIds, List.mem_toFinset, List.mem_map] at hx ⊢
  obtain ⟨r, hr, hid⟩ := hx
  exact ⟨r, get_roles_mem_catalog hr, hid⟩

/-- C7: the executor's diff sets are `qualified \ (current ∩ managed)` and
`(current ∩ managed) \ qualified`, and the role set it submits agrees with
the member's current roles on every role id outside the managed catalog. -/
theorem C7_unmanaged_roles_untouched (current_roles : Finset String) (b : ℚ)
    (catalog : List Role) :
    roles_to_add current_roles b catalog =
        qualified_role_ids b catalog \ (current_roles ∩ roleIds catalog) ∧
    roles_to_remove current_roles b catalog =
        (current_roles ∩ roleIds catalog) \ qualified_role_ids b catalog ∧
    ∀ id ∉ roleIds catalog,
      (id ∈ new_roles current_roles b catalog ↔ id ∈ current_roles) := by
  refine ⟨rfl, rfl, ?_⟩
  intro id hid
  have hq : id ∉ qualified_role_ids b catalog :=
    fun h => hid (qualified_subset_managed b catalog h)
  simp only [new_roles, roles_to_add, roles_to_remove, Finset.mem_union, Finset.mem_sdiff,
    Finset.mem_inter]
  tauto

/-- Witness for C7: the role id `"X"` is outside the sample catalog and is
preserved by the submitted role set. -/
theorem C7_unmanaged_roles_untouched_witness :
    roles_to_add {"X", "H"} 100 sampleCatalog =
        qualified_role_ids 100 sampleCatalog \ ({"X", "H"} ∩ roleIds sampleCatalog) ∧
    roles_to_remove {"X", "H"} 100 sampleCatalog =
        ({"X", "H"} ∩ roleIds sampleCatalog) \ qualified_role_ids 100 sampleCatalog ∧
    ("X" ∈ new_roles {"X", "H"} 100 sampleCatalog ↔ "X" ∈ ({"X", "H"} : Finset String)) :=
  ⟨(C7_unmanaged_roles_untouched {"X", "H"} 100 sampleCatalog).1,
   (C7_unmanaged_roles_untouched {"X", "H"} 100 sampleCatalog).2.1,
   (C7_unmanaged_roles_untouched {"X", "H"} 100 sampleCatalog).2.2 "X" (by decide)⟩

theorem new_roles_inter_managed (current_roles : Finset String) (b : ℚ)
    (catalog : List Role) :
    new_roles current_roles b catalog ∩ roleIds catalog = qualified_role_ids b catalog := by
  ext x
  simp only [new_roles, roles_to_add, roles_to_remove, Finset.mem_inter, Finset.mem_union,
    Finset.mem_sdiff]
  constructor
  · rintro ⟨⟨hc, hnr⟩ | ⟨hqx, -⟩, hm⟩
    · by_contra hnq
      exact hnr ⟨⟨hc, hm⟩, hnq⟩
    · exact hqx
  · intro hqx
    have hm : x ∈ roleIds catalog := qualified_subset_managed b catalog hqx
    refine ⟨?_, hm⟩
    by_cases hc : x ∈ current_roles
    · exact Or.inl ⟨hc, fun h => h.2 hqx⟩
    · exact Or.inr ⟨hqx, fun h => hc h.1⟩

/-- C8: reconciliation is idempotent — running the executor's diff on the
role set produced by a first pass (same balance, same catalog) yields empty
`to_add` and `to_remove`. -/
theorem C8_reconcile_idempotent (current_roles : Finset String) (b : ℚ)
    (catalog : List Role) :
    roles_to_add (reconciled_roles current_roles b catalog) b catalog = ∅ ∧
    roles_to_remove (reconciled_roles current_roles b catalog) b catalog = ∅ := by
  by_cases hch : roles_to_add current_roles b catalog ≠ ∅ ∨
      roles_to_remove current_roles b catalog ≠ ∅
  · rw [reconciled_roles, if_pos hch]
    constructor
    · show qualified_role_ids b catalog \
          (new_roles current_roles b catalog ∩ roleIds catalog) = ∅
      rw [new_roles_inter_managed, Finset.sdiff_self]
    · show (new_roles current_roles b catalog ∩ roleIds catalog) \
          qualified_role_ids b catalog = ∅
      rw [new_roles_inter_managed, Finset.sdiff_self]
  · rw [reconciled_roles, if_neg hch]
    push_neg at hch
    exact hch

theorem applyRoleDiff_invoked (inv : Bool) (m : Option (Finset String)) (b : ℚ)
    (catalog : List Role) : (applyRoleDiff inv m b catalog).validatorInvoked = inv := by
  cases m with
  | none => rfl
  | some current =>
    show (if roles_to_add current b catalog ≠ ∅ ∨ roles_to_remove current b catalog ≠ ∅ then
        (⟨inv, [], some (new_roles current b catalog), .applied⟩ : DeltaEffects)
      else ⟨inv, [], none, .skipped⟩).validatorInvoked = inv
    split_ifs <;> rfl

/-- C9: the executor invokes the validator exactly when the delta's wallet
address is usable and its current balance is positive; whenever the
validator returns invalid, exactly one audit record is inserted — carrying
the decision-time balance, the blocked reasons and the per-check detail —
and no role mutation is issued for that wallet. -/
theorem C9_executor_blocks_on_invalid (discordId : String)
    (walletAddress : Option String) (bal : ℚ) (valRes : ValidationResult)
    (memberRoles : Option (Finset String)) (catalog : List Role) :
    ((process_delta discordId walletAddress bal valRes memberRoles catalog).validatorInvoked =
      (walletTruthy walletAddress && decide (0 < bal))) ∧
    (walletTruthy walletAddress = true → 0 < bal → valRes.is_valid = false →
      process_delta discordId walletAddress bal valRes memberRoles catalog =
        ⟨true,
         [⟨discordId, walletAddress.getD "", bal, valRes.blocked_reasons,
           valRes.checks_performed⟩],
         none, .blocked⟩) := by
  constructor
  · unfold process_delta
    by_cases hg : (walletTruthy walletAddress && decide (0 < bal)) = true
    · rw [if_pos hg, hg]
      cases hv : valRes.is_valid with
      | true => rw [if_neg (by simp [hv]), applyRoleDiff_invoked]
      | false => rw [if_pos (by simp [hv])]
    · rw [if_neg hg, applyRoleDiff_invoked]
      exact ((Bool.not_eq_true _).mp hg).symm
  · intro hw hb hv
    unfold process_delta
    rw [if_pos (by simp [hw, hb]), if_pos (by simp [hv])]

/-- Witness for C9: a wallet with address and positive balance whose
validation failed is blocked with one audit record and no role PATCH. -/
theorem C9_executor_blocks_on_invalid_witness :
    ((process_delta "d1" (some "osmo1") 5 ⟨false, ["Wallet Age: too new"], [], []⟩
        (some {"H"}) sampleCatalog).validatorInvoked =
      (walletTruthy (some "osmo1") && decide ((0 : ℚ) < 5))) ∧
    process_delta "d1" (some "osmo1") 5 ⟨false, ["Wallet Age: too new"], [], []⟩
        (some {"H"}) sampleCatalog =
      ⟨true, [⟨"d1", (some "osmo1").getD "", 5, ["Wallet Age: too new"], []⟩],
       none, .blocked⟩ :=
  ⟨(C9_executor_blocks_on_invalid "d1" (some "osmo1") 5 ⟨false, ["Wallet Age: too new"], [], []⟩
      (some {"H"}) sampleCatalog).1,
   (C9_executor_blocks_on_invalid "d1" (some "osmo1") 5 ⟨false, ["Wallet Age: too new"], [], []⟩
      (some {"H"}) sampleCatalog).2 (by decide) (by norm_num) rfl⟩

theorem batch_check_balances_eq (wallets : List WalletLink) (fetch : WalletLink → ℚ) :
    batch_check_balances wallets fetch =
      (wallets.filter
          (fun w => decide (balanceEpsilon < |fetch w - w.lastKnownBalance.getD 0|))).map
        (fun w => mkDelta w (fetch w)) := by
  have h : ∀ (ws : List WalletLink) (acc : List BalanceDelta),
      ws.foldl
          (fun balance_updates w =>
            if balanceEpsilon < |fetch w - w.lastKnownBalance.getD 0| then
              balance_updates ++ [mkDelta w (fetch w)]
            else balance_updates) acc =
        acc ++ (ws.filter
            (fun w => decide (balanceEpsilon < |fetch w - w.lastKnownBalance.getD 0|))).map
          (fun w => mkDelta w (fetch w)) := by
    intro ws
    induction ws with
    | nil => intro acc; simp
    | cons w t ih =>
      intro acc
      simp only [List.foldl_cons, List.filter_cons]
      by_cases hc : balanceEpsilon < |fetch w - w.lastKnownBalance.getD 0|
      · rw [if_pos hc, ih, if_pos (by simpa using hc), List.map_cons]
        simp
      · rw [if_neg hc, ih, if_neg (by simpa using hc)]
  exact h wallets []

/-- C10: one poll cycle yields a delta for a wallet exactly when the
fetched balance differs from the last known balance (default 0) by more
than `1e-6`; for wallets inside the epsilon no delta is produced, no
history record is inserted and the last known balance is not updated. -/
theorem C10_delta_iff_epsilon_exceeded (wallets : List WalletLink)
    (fetch : WalletLink → ℚ) (hnodup : (wallets.map WalletLink.userId).Nodup) :
    ∀ w ∈ wallets,
      ((∃ d ∈ batch_check_balances wallets fetch, d.userId = w.userId) ↔
        balanceEpsilon < |fetch w - w.lastKnownBalance.getD 0|) ∧
      (¬balanceEpsilon < |fetch w - w.lastKnownBalance.getD 0| →
        (∀ rec ∈ (save_balance_history (batch_check_balances wallets fetch)).insertedRecords,
          rec.userId ≠ w.userId) ∧
        (∀ upd ∈ (save_balance_history (batch_check_balances wallets fetch)).lastKnownUpdates,
          upd.1 ≠ w.userId)) := by
  intro w hw
  have hinj := List.inj_on_of_nodup_map hnodup
  have hmem : ∀ d ∈ batch_check_balances wallets fetch, d.userId = w.userId →
      balanceEpsilon < |fetch w - w.lastKnownBalance.getD 0| := by
    intro d hd hid
    rw [batch_check_balances_eq] at hd
    obtain ⟨w', hw', hdw⟩ := List.mem_map.mp hd
    have hw'mem : w' ∈ wallets := (List.mem_filter.mp hw').1
    have hcond : balanceEpsilon < |fetch w' - w'.lastKnownBalance.getD 0| := by
      simpa using (List.mem_filter.mp hw').2
    have : w' = w := hinj hw'mem hw (by rw [← hid, ← hdw]; rfl)
    exact this ▸ hcond
  constructor
  · constructor
    · rintro ⟨d, hd, hid⟩
      exact hmem d hd hid
    · intro hc
      refine ⟨mkDelta w (fetch w), ?_, rfl⟩
      rw [batch_check_balances_eq]
      exact List.mem_map_of_mem _ (List.mem_filter.mpr ⟨hw, by simpa using hc⟩)
  · intro hc
    constructor
    · intro rec hrec hid
      exact hc (hmem rec hrec hid)
    · intro upd hupd
      simp only [save_balance_history, List.mem_map] at hupd
      obtain ⟨d, hd, hdu⟩ := hupd
      intro hid
      exact hc (hmem d hd (by rw [← hid, ← hdu]))

/-- Witness for C10: `sampleWallet1`'s balance is unchanged (no delta, no
record, no last-known update) while `sampleWallet2` jumps from 0 to 10. -/
theorem C10_delta_iff_epsilon_exceeded_witness :
    ((∃ d ∈ batch_check_balances [sampleWallet1, sampleWallet2] sampleFetch,
        d.userId = sampleWallet1.userId) ↔
      balanceEpsilon < |sampleFetch sampleWallet1 - sampleWallet1.lastKnownBalance.getD 0|) ∧
    (¬balanceEpsilon <
        |sampleFetch sampleWallet1 - sampleWallet1.lastKnownBalance.getD 0| →
      (∀ rec ∈ (save_balance_history
          (batch_check_balances [sampleWallet1, sampleWallet2] sampleFetch)).insertedRecords,
        rec.userId ≠ sampleWallet1.userId) ∧
      (∀ upd ∈ (save_balance_history
          (batch_check_balances [sampleWallet1, sampleWallet2] sampleFetch)).lastKnownUpdates,
        upd.1 ≠ sampleWallet1.userId)) :=
  C10_delta_iff_epsilon_exceeded [sampleWallet1, sampleWallet2] sampleFetch (by decide)
    sampleWallet1 (by decide)

end CrowdpGate
